import Mathlib

/-!
Verification of `pkg/builder.go` from carrotsong/ion-avp.

`Builder` runs two concurrent loops over shared state guarded by one
`sync.RWMutex`: `build` (ingest: reads RTP packets, pushes them through the
sample builder, hands completed samples to the bounded channel `out`) and
`forward` (dispatch: drains `out` and writes each sample to every attached
`Element`).  External callers may invoke `AttachElement`, `OnStop` and
`stop` at any time.

We embed the Builder as a small-step interleaving semantics.  Each region of
code executed while holding `b.mu` (read or write) is one atomic step; code
executed outside the lock (the blocking `ReadRTP`, the channel send
`b.out <- sample`, the channel receive `<-b.out`) gets its own step, so every
interleaving of lock regions and unlocked channel operations in the Go
program corresponds to a trace of this semantics.  Elements are identified by
natural numbers; their `Write`/`Close` calls are recorded in an event trace.
A `Write` that returns an error is recorded together with a log event, as in
the source, and delivery continues.  Sending on a closed Go channel panics;
the semantics records this as a crash that freezes the whole state.

Machine integers: `b.sequence` is a Go `uint16`; it is modelled as a `Nat`
reduced modulo 2^16 exactly where the Go counter overflows.
-/

namespace IonAvp

/-- RTP depacketizers that `NewBuilder` (builder.go:38-59) can select.  The
absent (`nil`) `rtp.Depacketizer` interface value left by the `switch`
fall-through is modelled as `none` at the use site. -/
inductive Depack
  | opusPacket
  | vp8Packet
  | vp9Packet
  | h264Packet
deriving DecidableEq, Repr

/-- Partition head checkers selectable in `NewBuilder` (builder.go:41-53). -/
inductive Headers
  | opusHead
  | vp8Head
  | vp9Head
deriving DecidableEq, Repr

/-- The strategy `NewBuilder` binds: an optional depacketizer and an optional
partition head checker (`none` models the `nil` interface value). -/
structure Strategy where
  depacketizer : Option Depack
  headCheck : Option Headers
deriving DecidableEq, Repr

/-- The codec names the `switch` in `NewBuilder` recognises: the string
constants `webrtc.Opus`, `webrtc.VP8`, `webrtc.VP9`, `webrtc.H264` of the
webrtc dependency. -/
def knownCodecs : List String := ["opus", "VP8", "VP9", "H264"]

/-- The `switch track.Codec().Name` of `NewBuilder` (builder.go:41-53): each
known codec binds its depacketizer (and, except H264, its partition head
checker); any other codec name falls through, leaving both `nil`. -/
def selectStrategy (name : String) : Strategy :=
  if name = "opus" then ⟨some Depack.opusPacket, some Headers.opusHead⟩
  else if name = "VP8" then ⟨some Depack.vp8Packet, some Headers.vp8Head⟩
  else if name = "VP9" then ⟨some Depack.vp9Packet, some Headers.vp9Head⟩
  else if name = "H264" then ⟨some Depack.h264Packet, none⟩
  else ⟨none, none⟩

/-- Value of the `uint16` field `b.sequence` after `n` executions of
`b.sequence++` (builder.go:135), starting from the zero value 0. -/
def seqOfEmission : Nat → Nat
  | 0 => 0
  | n + 1 => (seqOfEmission n + 1) % 65536

/-- Result of one `b.track.ReadRTP()` call (builder.go:100): end of stream,
some other read error, or a packet whose `Push` leaves `k` samples ready to
`PopWithTimestamp` in the inner drain loop. -/
inductive ReadRes
  | eof
  | err
  | pkt (k : Nat)
deriving DecidableEq, Repr

/-- Observable events of one Builder.  `write e s` is `e.Write(sample)` where
`s` is the sample's engine-assigned sequence number (`none` for the `nil`
sample a closed channel yields); `logWrite` is the error log of a failed
write (builder.go:154); `logRead` the error log of a failed read
(builder.go:106); `close e` is `e.Close()` (builder.go:170); `callback` the
`onStopHandler()` call (builder.go:173); `sendOnClosedQueue` the runtime
panic of `b.out <- sample` on a closed channel. -/
inductive Event
  | write (e : Nat) (s : Option Nat)
  | logWrite (e : Nat)
  | logRead
  | close (e : Nat)
  | callback
  | sendOnClosedQueue
deriving DecidableEq, Repr

def Event.isWrite : Event → Bool
  | .write _ _ => true
  | _ => false

def Event.isClose : Event → Bool
  | .close _ => true
  | _ => false

/-- Program counter of the `build` goroutine (builder.go:90-138).
`checkTop` is the stop check at the top of the outer loop; `readPkt` the
blocking `ReadRTP`; `inner k` the head of the inner drain loop with `k`
samples still ready in the sample builder; `sendOut k` the unlocked channel
send `b.out <- sample` with `k` further samples ready. -/
inductive BuildPC
  | checkTop
  | readPkt
  | inner (k : Nat)
  | sendOut (k : Nat)
  | done
deriving DecidableEq, Repr

/-- Program counter of the `forward` goroutine (builder.go:141-159).
`recv` is the blocking `<-b.out`; `deliver s` the locked region that checks
`stopped` and writes sample `s` to every element. -/
inductive ForwardPC
  | recv
  | deliver (s : Option Nat)
  | done
deriving DecidableEq, Repr

/-- One Builder's state.  Fields up to `script` mirror the Go struct and the
channel; `buildPC`/`forwardPC` are the two goroutines' control points;
`script` is the remaining stream of `ReadRTP` results; `crashed` records a
runtime panic.  `stopInfo` and `emitted` are ghost bookkeeping: the element
list and handler flag at the moment `stop` transitioned, and the number of
samples handed to `out` so far. -/
structure BState where
  stopped : Bool
  elements : List Nat
  handlerSet : Bool
  sequence : Nat
  out : List Nat
  outClosed : Bool
  events : List Event
  buildPC : BuildPC
  forwardPC : ForwardPC
  script : List ReadRes
  crashed : Bool
  stopInfo : Option (List Nat × Bool)
  emitted : Nat
deriving DecidableEq, Repr

/-- Capacity of the bounded channel `out` (builder.go:17, 58). -/
def maxSize : Nat := 100

/-- `Builder.stop` (builder.go:162-176), executed atomically under `b.mu`:
no-op if already stopped; otherwise mark stopped, `Close` every attached
element in attachment order, invoke the registered handler if any, and close
the channel.  The ghost `stopInfo` records the elements and handler flag at
this transition. -/
def stopAction (st : BState) : BState :=
  if st.stopped then st
  else
    { st with
      stopped := true
      events := st.events ++ st.elements.map Event.close
        ++ (if st.handlerSet then [Event.callback] else [])
      outClosed := true
      stopInfo := some (st.elements, st.handlerSet) }

/-- Events produced by the write loop of `forward` for one sample
(builder.go:151-156): every element in order receives the `Write`; a failing
write additionally produces one error log and delivery continues. -/
def deliverEvents (elems : List Nat) (s : Option Nat)
    (fails : Nat → Option Nat → Bool) : List Event :=
  (elems.map fun e =>
    Event.write e s :: (if fails e s then [Event.logWrite e] else [])).flatten

/-- One step of the `build` goroutine (builder.go:90-138). -/
def buildStepFn (st : BState) : BState :=
  match st.buildPC with
  | .checkTop =>
    if st.stopped then { st with buildPC := .done }
    else { st with buildPC := .readPkt }
  | .readPkt =>
    match st.script with
    | [] => st
    | .eof :: rest => { stopAction { st with script := rest } with buildPC := .done }
    | .err :: rest =>
      { st with script := rest, events := st.events ++ [Event.logRead],
                buildPC := .checkTop }
    | .pkt k :: rest => { st with script := rest, buildPC := .inner k }
  | .inner k =>
    if st.stopped then { st with buildPC := .done }
    else if k = 0 then { st with buildPC := .checkTop }
    else { st with buildPC := .sendOut (k - 1) }
  | .sendOut k =>
    if st.outClosed then
      { st with crashed := true,
                events := st.events ++ [Event.sendOnClosedQueue],
                buildPC := .done }
    else if st.out.length < maxSize then
      { st with out := st.out ++ [st.sequence],
                sequence := (st.sequence + 1) % 65536,
                emitted := st.emitted + 1,
                buildPC := .inner k }
    else st
  | .done => st

/-- One step of the `forward` goroutine (builder.go:141-159). -/
def forwardStepFn (fails : Nat → Option Nat → Bool) (st : BState) : BState :=
  match st.forwardPC with
  | .recv =>
    match st.out with
    | s :: rest => { st with out := rest, forwardPC := .deliver (some s) }
    | [] =>
      if st.outClosed then { st with forwardPC := .deliver none } else st
  | .deliver s =>
    if st.stopped then { st with forwardPC := .done }
    else
      { st with events := st.events ++ deliverEvents st.elements s fails,
                forwardPC := .recv }
  | .done => st

/-- The schedulable atomic actions: a step of either goroutine, or an
external call to `stop`, `AttachElement` or `OnStop`. -/
inductive Action
  | buildStep
  | forwardStep
  | extStop
  | extAttach (e : Nat)
  | extOnStop
deriving DecidableEq, Repr

/-- Apply one action.  A crashed (panicked) process takes no further steps.
`AttachElement` (builder.go:72-76) appends unconditionally; `OnStop`
(builder.go:84-88) registers the handler; `stop` may come from any caller. -/
def applyAction (fails : Nat → Option Nat → Bool) (a : Action) (st : BState) :
    BState :=
  if st.crashed then st
  else
    match a with
    | .buildStep => buildStepFn st
    | .forwardStep => forwardStepFn fails st
    | .extStop => stopAction st
    | .extAttach e => { st with elements := st.elements ++ [e] }
    | .extOnStop => { st with handlerSet := true }

/-- Run a trace of actions. -/
def run (fails : Nat → Option Nat → Bool) (st : BState) : List Action → BState
  | [] => st
  | a :: tr => run fails (applyAction fails a st) tr

/-- The Builder as `NewBuilder` (builder.go:55-68) sets it up: zero-value
`stopped`/`sequence`, no elements, no handler, empty open channel, both
goroutines at the top of their loops. -/
def mkBuilder (script : List ReadRes) : BState :=
  { stopped := false, elements := [], handlerSet := false, sequence := 0,
    out := [], outClosed := false, events := [], buildPC := .checkTop,
    forwardPC := .recv, script := script, crashed := false,
    stopInfo := none, emitted := 0 }

/-- The elements closed so far, in order. -/
def closesOf (evs : List Event) : List Nat :=
  evs.filterMap fun ev =>
    match ev with
    | .close e => some e
    | _ => none

/-- The writes recorded so far: element paired with the sample it received. -/
def writesOf (evs : List Event) : List (Nat × Option Nat) :=
  evs.filterMap fun ev =>
    match ev with
    | .write e s => some (e, s)
    | _ => none

/-- Number of `onStopHandler` invocations recorded. -/
def cbCount (evs : List Event) : Nat :=
  evs.countP fun ev =>
    match ev with
    | .callback => true
    | _ => false

def noWrites (evs : List Event) : Bool := evs.all fun ev => !ev.isWrite

/-- Every write in the trace precedes every close: no element is written
after any element has been closed. -/
def writesPrecedeCloses : List Event → Bool
  | [] => true
  | ev :: rest =>
    if ev.isClose then noWrites rest else writesPrecedeCloses rest

/-- A write-failure oracle under which no `Write` fails. -/
def noFail : Nat → Option Nat → Bool := fun _ _ => false

/-- The interleaving that crashes the engine: the ingest loop passes its
stop check and is about to hand a sample to `out` when an external `stop`
closes the channel; the pending `b.out <- sample` then panics. -/
def raceTrace : List Action :=
  [Action.buildStep, Action.buildStep, Action.buildStep, Action.extStop,
   Action.buildStep]

/-! ### Facts about the emission counter and the event-trace functions -/

theorem seqOfEmission_eq (n : Nat) : seqOfEmission n = n % 65536 := by
  induction n with
  | zero => rfl
  | succ n ih => rw [seqOfEmission, ih]; omega

theorem closesOf_append (l₁ l₂ : List Event) :
    closesOf (l₁ ++ l₂) = closesOf l₁ ++ closesOf l₂ := by
  simp [closesOf]

theorem writesOf_append (l₁ l₂ : List Event) :
    writesOf (l₁ ++ l₂) = writesOf l₁ ++ writesOf l₂ := by
  simp [writesOf]

theorem cbCount_append (l₁ l₂ : List Event) :
    cbCount (l₁ ++ l₂) = cbCount l₁ + cbCount l₂ := by
  simp [cbCount, List.countP_append]

theorem closesOf_map_close (l : List Nat) :
    closesOf (l.map Event.close) = l := by
  induction l with
  | nil => rfl
  | cons a l ih => simpa [closesOf] using ih

theorem writesOf_map_close (l : List Nat) :
    writesOf (l.map Event.close) = [] := by
  induction l with
  | nil => rfl
  | cons a l ih => simp [writesOf, ih]

theorem cbCount_map_close (l : List Nat) :
    cbCount (l.map Event.close) = 0 := by
  induction l with
  | nil => rfl
  | cons a l ih => simp [cbCount, ih]

theorem closesOf_cbIte (c : Bool) :
    closesOf (if c then [Event.callback] else []) = [] := by
  cases c <;> simp [closesOf]

theorem writesOf_cbIte (c : Bool) :
    writesOf (if c then [Event.callback] else []) = [] := by
  cases c <;> simp [writesOf]

theorem cbCount_cbIte (c : Bool) :
    cbCount (if c then [Event.callback] else []) = if c then 1 else 0 := by
  cases c <;> simp [cbCount]

theorem mem_writesOf {evs : List Event} {e : Nat} {s : Option Nat} :
    (e, s) ∈ writesOf evs ↔ Event.write e s ∈ evs := by
  induction evs with
  | nil => simp [writesOf]
  | cons ev rest ih => cases ev <;> simp_all [writesOf]

theorem mem_closesOf {evs : List Event} {e : Nat} :
    e ∈ closesOf evs ↔ Event.close e ∈ evs := by
  induction evs with
  | nil => simp [closesOf]
  | cons ev rest ih => cases ev <;> simp_all [closesOf]

theorem noCloses_of_closesOf_eq_nil {evs : List Event}
    (h : closesOf evs = []) : ∀ ev ∈ evs, ev.isClose = false := by
  intro ev hev
  cases ev <;> try rfl
  case close e =>
    exfalso
    have h2 : e ∈ closesOf evs := mem_closesOf.mpr hev
    simp [h] at h2

/-! ### Facts about the write-precedes-close predicate -/

theorem noWrites_append (l₁ l₂ : List Event) :
    noWrites (l₁ ++ l₂) = (noWrites l₁ && noWrites l₂) := by
  simp [noWrites, List.all_append]

theorem wpc_of_noWrites {evs : List Event} (h : noWrites evs = true) :
    writesPrecedeCloses evs = true := by
  induction evs with
  | nil => rfl
  | cons ev rest ih =>
    simp [noWrites] at h
    have hr : noWrites rest = true := by simp [noWrites]; exact h.2
    by_cases hc : ev.isClose = true
    · rw [writesPrecedeCloses, if_pos hc]
      exact hr
    · rw [writesPrecedeCloses, if_neg hc]
      exact ih hr

theorem wpc_of_noCloses {evs : List Event}
    (h : ∀ ev ∈ evs, ev.isClose = false) : writesPrecedeCloses evs = true := by
  induction evs with
  | nil => rfl
  | cons ev rest ih =>
    have h1 := h ev (List.mem_cons_self ev rest)
    rw [writesPrecedeCloses, h1]
    simp only [Bool.false_eq_true, if_false]
    exact ih fun x hx => h x (List.mem_cons_of_mem _ hx)

theorem wpc_append_nonwrites {l₁ l₂ : List Event}
    (h1 : writesPrecedeCloses l₁ = true) (h2 : noWrites l₂ = true) :
    writesPrecedeCloses (l₁ ++ l₂) = true := by
  induction l₁ with
  | nil => simpa using wpc_of_noWrites h2
  | cons ev rest ih =>
    rw [writesPrecedeCloses] at h1
    rw [List.cons_append, writesPrecedeCloses]
    by_cases hc : ev.isClose = true
    · rw [hc] at h1 ⊢
      simp only [if_true]
      simp only [if_true] at h1
      simp [noWrites_append, h1, h2]
    · simp only [hc] at h1 ⊢
      simp only [Bool.false_eq_true, if_false] at h1 ⊢
      exact ih h1

theorem wpc_append_of_noCloses {l₁ l₂ : List Event}
    (h1 : ∀ ev ∈ l₁, ev.isClose = false)
    (h2 : writesPrecedeCloses l₂ = true) :
    writesPrecedeCloses (l₁ ++ l₂) = true := by
  induction l₁ with
  | nil => simpa using h2
  | cons ev rest ih =>
    have hc := h1 ev (List.mem_cons_self ev rest)
    rw [List.cons_append, writesPrecedeCloses, hc]
    simp only [Bool.false_eq_true, if_false]
    exact ih fun x hx => h1 x (List.mem_cons_of_mem _ hx)

/-! ### Facts about the dispatch pass -/

theorem deliverEvents_nil (s : Option Nat) (fails : Nat → Option Nat → Bool) :
    deliverEvents [] s fails = [] := rfl

theorem deliverEvents_cons (a : Nat) (elems : List Nat) (s : Option Nat)
    (fails : Nat → Option Nat → Bool) :
    deliverEvents (a :: elems) s fails =
      Event.write a s ::
        ((if fails a s then [Event.logWrite a] else [])
          ++ deliverEvents elems s fails) := by
  simp [deliverEvents]

theorem deliverEvents_noCloses {elems : List Nat} {s : Option Nat}
    {fails : Nat → Option Nat → Bool} :
    ∀ ev ∈ deliverEvents elems s fails, ev.isClose = false := by
  induction elems with
  | nil => simp [deliverEvents_nil]
  | cons a elems ih =>
    intro ev hev
    rw [deliverEvents_cons] at hev
    rcases List.mem_cons.mp hev with h | h
    · subst h; rfl
    · rcases List.mem_append.mp h with h2 | h2
      · by_cases hf : fails a s = true
        · simp [hf] at h2; subst h2; rfl
        · simp [hf] at h2
      · exact ih ev h2

theorem closesOf_deliverEvents (elems : List Nat) (s : Option Nat)
    (fails : Nat → Option Nat → Bool) :
    closesOf (deliverEvents elems s fails) = [] := by
  induction elems with
  | nil => rfl
  | cons a elems ih =>
    rw [deliverEvents_cons]
    by_cases hf : fails a s = true <;> simp [closesOf, hf] <;>
      simpa [closesOf] using ih

theorem cbCount_deliverEvents (elems : List Nat) (s : Option Nat)
    (fails : Nat → Option Nat → Bool) :
    cbCount (deliverEvents elems s fails) = 0 := by
  induction elems with
  | nil => rfl
  | cons a elems ih =>
    rw [deliverEvents_cons]
    by_cases hf : fails a s = true <;> simp [cbCount, hf] <;>
      simpa [cbCount] using ih

theorem writesOf_deliverEvents (elems : List Nat) (s : Option Nat)
    (fails : Nat → Option Nat → Bool) :
    writesOf (deliverEvents elems s fails) = elems.map fun e => (e, s) := by
  induction elems with
  | nil => rfl
  | cons a elems ih =>
    rw [deliverEvents_cons]
    by_cases hf : fails a s = true <;> simp [writesOf, hf] <;>
      simpa [writesOf] using ih

theorem write_mem_deliverEvents {elems : List Nat} {s s2 : Option Nat}
    {fails : Nat → Option Nat → Bool} {e : Nat}
    (h : Event.write e s2 ∈ deliverEvents elems s fails) : e ∈ elems := by
  have := mem_writesOf.mpr h
  rw [writesOf_deliverEvents] at this
  rcases List.mem_map.mp this with ⟨x, hx, hxe⟩
  cases hxe
  exact hx

/-! ### Invariants of the interleaving semantics -/

/-- The channel is closed exactly when the Builder is stopped: `close(b.out)`
(builder.go:175) happens in the same critical section that sets
`b.stopped = true` (builder.go:168). -/
def InvA (st : BState) : Prop := st.outClosed = st.stopped

/-- Before the stop transition no element has been closed, the stop handler
has not run, and the ghost stop record is empty. -/
def InvB (st : BState) : Prop :=
  st.stopped = false →
    closesOf st.events = [] ∧ cbCount st.events = 0 ∧ st.stopInfo = none

/-- After the stop transition the closes on record are exactly the elements
attached at that transition, in attachment order; the handler ran exactly
once iff it was registered at that transition; those elements are still
attached; and the Builder is stopped. -/
def InvC (st : BState) : Prop :=
  ∀ l b, st.stopInfo = some (l, b) →
    st.stopped = true ∧ closesOf st.events = l ∧
    cbCount st.events = (if b then 1 else 0) ∧ ∀ x ∈ l, x ∈ st.elements

/-- The ghost stop record exists as soon as the Builder is stopped. -/
def InvG (st : BState) : Prop := st.stopInfo = none → st.stopped = false

/-- No write is recorded after any close. -/
def InvD (st : BState) : Prop := writesPrecedeCloses st.events = true

/-- Only attached elements are ever written. -/
def InvE (st : BState) : Prop :=
  ∀ e s, Event.write e s ∈ st.events → e ∈ st.elements

/-- The uint16 counter equals the number of emitted samples mod 2^16. -/
def InvF (st : BState) : Prop := st.sequence = seqOfEmission st.emitted

def Inv (st : BState) : Prop :=
  InvA st ∧ InvB st ∧ InvC st ∧ InvG st ∧ InvD st ∧ InvE st ∧ InvF st

theorem noWrites_map_close (l : List Nat) :
    noWrites (l.map Event.close) = true := by
  induction l with
  | nil => rfl
  | cons a l ih =>
    simp [noWrites] at ih ⊢
    exact ⟨rfl, ih⟩

theorem noWrites_cbIte (c : Bool) :
    noWrites (if c then [Event.callback] else []) = true := by
  cases c <;> simp [noWrites, Event.isWrite]

theorem write_notMem_of_noWrites {tail : List Event} {e : Nat} {s : Option Nat}
    (h : noWrites tail = true) : Event.write e s ∉ tail := by
  intro hmem
  simp [noWrites] at h
  have h2 := h _ hmem
  simp [Event.isWrite] at h2

/-- A step that leaves every Inv-relevant field unchanged preserves Inv. -/
theorem inv_irrel {st st' : BState} (h : Inv st)
    (h1 : st'.stopped = st.stopped) (h2 : st'.elements = st.elements)
    (h3 : st'.events = st.events) (h4 : st'.outClosed = st.outClosed)
    (h5 : st'.stopInfo = st.stopInfo) (h6 : st'.sequence = st.sequence)
    (h7 : st'.emitted = st.emitted) : Inv st' := by
  obtain ⟨hA, hB, hC, hG, hD, hE, hF⟩ := h
  refine ⟨?_, ?_, ?_, ?_, ?_, ?_, ?_⟩
  · simp only [InvA, h4, h1]; exact hA
  · simp only [InvB, h1, h3, h5]; exact hB
  · simp only [InvC, h1, h2, h3, h5]; exact hC
  · simp only [InvG, h1, h5]; exact hG
  · simp only [InvD, h3]; exact hD
  · simp only [InvE, h2, h3]; exact hE
  · simp only [InvF, h6, h7]; exact hF

/-- A step that only appends write-free, close-free, callback-free events
(an error log, or the panic marker) preserves Inv. -/
theorem inv_append_logs {st st' : BState} (h : Inv st) (tail : List Event)
    (hc : closesOf tail = []) (hcb : cbCount tail = 0)
    (hnw : noWrites tail = true)
    (h3 : st'.events = st.events ++ tail)
    (h1 : st'.stopped = st.stopped) (h2 : st'.elements = st.elements)
    (h4 : st'.outClosed = st.outClosed) (h5 : st'.stopInfo = st.stopInfo)
    (h6 : st'.sequence = st.sequence) (h7 : st'.emitted = st.emitted) :
    Inv st' := by
  obtain ⟨hA, hB, hC, hG, hD, hE, hF⟩ := h
  refine ⟨?_, ?_, ?_, ?_, ?_, ?_, ?_⟩
  · simp only [InvA, h4, h1]; exact hA
  · simp only [InvB, h1, h3, h5, closesOf_append, cbCount_append, hc, hcb]
    intro hs
    obtain ⟨hb1, hb2, hb3⟩ := hB hs
    simp [hb1, hb2, hb3]
  · simp only [InvC, h1, h2, h3, h5, closesOf_append, cbCount_append, hc, hcb]
    intro l b hsi
    obtain ⟨hc1, hc2, hc3, hc4⟩ := hC l b hsi
    simp [hc1, hc2, hc3]
    exact hc4
  · simp only [InvG, h1, h5]; exact hG
  · simp only [InvD, h3]
    exact wpc_append_nonwrites hD hnw
  · simp only [InvE, h2, h3]
    intro e s hmem
    rcases List.mem_append.mp hmem with hm | hm
    · exact hE e s hm
    · exact absurd hm (write_notMem_of_noWrites hnw)
  · simp only [InvF, h6, h7]; exact hF

/-- The enqueue step (hand one sample to `out`, bump the uint16 counter)
preserves Inv. -/
theorem inv_enq {st st' : BState} (h : Inv st)
    (h3 : st'.events = st.events) (h1 : st'.stopped = st.stopped)
    (h2 : st'.elements = st.elements) (h4 : st'.outClosed = st.outClosed)
    (h5 : st'.stopInfo = st.stopInfo)
    (h6 : st'.sequence = (st.sequence + 1) % 65536)
    (h7 : st'.emitted = st.emitted + 1) : Inv st' := by
  obtain ⟨hA, hB, hC, hG, hD, hE, hF⟩ := h
  refine ⟨?_, ?_, ?_, ?_, ?_, ?_, ?_⟩
  · simp only [InvA, h4, h1]; exact hA
  · simp only [InvB, h1, h3, h5]; exact hB
  · simp only [InvC, h1, h2, h3, h5]; exact hC
  · simp only [InvG, h1, h5]; exact hG
  · simp only [InvD, h3]; exact hD
  · simp only [InvE, h2, h3]; exact hE
  · simp only [InvF, h6, h7, seqOfEmission]
    rw [hF]

/-- `Builder.stop` preserves Inv. -/
theorem inv_stopAction {st : BState} (h : Inv st) : Inv (stopAction st) := by
  obtain ⟨hA, hB, hC, hG, hD, hE, hF⟩ := h
  by_cases hs : st.stopped = true
  · rw [stopAction, if_pos hs]
    exact ⟨hA, hB, hC, hG, hD, hE, hF⟩
  · rw [stopAction, if_neg hs]
    rw [Bool.not_eq_true] at hs
    obtain ⟨hb1, hb2, hb3⟩ := hB hs
    have hnc : ∀ ev ∈ st.events, ev.isClose = false :=
      noCloses_of_closesOf_eq_nil hb1
    refine ⟨?_, ?_, ?_, ?_, ?_, ?_, ?_⟩
    · simp [InvA]
    · simp [InvB]
    · simp only [InvC]
      intro l b hsi
      simp only [Option.some.injEq, Prod.mk.injEq] at hsi
      refine ⟨by trivial, ?_, ?_, ?_⟩
      · rw [← hsi.1]
        simp [closesOf_append, closesOf_map_close, closesOf_cbIte, hb1]
      · rw [← hsi.2]
        simp [cbCount_append, cbCount_map_close, cbCount_cbIte, hb2]
      · intro x hx
        rw [← hsi.1] at hx
        exact hx
    · simp [InvG]
    · simp only [InvD, List.append_assoc]
      refine wpc_append_of_noCloses hnc ?_
      refine wpc_of_noWrites ?_
      simp [noWrites_append, noWrites_map_close, noWrites_cbIte]
    · simp only [InvE]
      intro e s hmem
      rcases List.mem_append.mp hmem with hm | hm
      · rcases List.mem_append.mp hm with hm2 | hm2
        · exact hE e s hm2
        · exact absurd hm2
            (write_notMem_of_noWrites (noWrites_map_close st.elements))
      · exact absurd hm
          (write_notMem_of_noWrites (noWrites_cbIte st.handlerSet))
    · simp only [InvF]; exact hF

/-- Helper for the end-of-stream branch: `b.stop()` then return. -/
theorem inv_stop_done {st : BState} (h : Inv st) (r : List ReadRes) :
    Inv { stopAction { st with script := r } with buildPC := BuildPC.done } := by
  have h1 : Inv { st with script := r } :=
    inv_irrel h rfl rfl rfl rfl rfl rfl rfl
  exact inv_irrel (inv_stopAction h1) rfl rfl rfl rfl rfl rfl rfl

/-- One step of the ingest loop preserves Inv. -/
theorem inv_buildStepFn {st : BState} (h : Inv st) : Inv (buildStepFn st) := by
  unfold buildStepFn
  split
  · split
    · exact inv_irrel h rfl rfl rfl rfl rfl rfl rfl
    · exact inv_irrel h rfl rfl rfl rfl rfl rfl rfl
  · split
    · exact h
    · exact inv_stop_done h _
    · exact inv_append_logs h [Event.logRead] rfl rfl rfl rfl rfl rfl rfl rfl
        rfl rfl
    · exact inv_irrel h rfl rfl rfl rfl rfl rfl rfl
  · split
    · exact inv_irrel h rfl rfl rfl rfl rfl rfl rfl
    · split
      · exact inv_irrel h rfl rfl rfl rfl rfl rfl rfl
      · exact inv_irrel h rfl rfl rfl rfl rfl rfl rfl
  · split
    · exact inv_append_logs h [Event.sendOnClosedQueue] rfl rfl rfl rfl rfl
        rfl rfl rfl rfl rfl
    · split
      · exact inv_enq h rfl rfl rfl rfl rfl rfl rfl
      · exact h
  · exact h

/-- One step of the dispatch loop preserves Inv. -/
theorem inv_forwardStepFn (fails : Nat → Option Nat → Bool) {st : BState}
    (h : Inv st) : Inv (forwardStepFn fails st) := by
  unfold forwardStepFn
  split
  · split
    · exact inv_irrel h rfl rfl rfl rfl rfl rfl rfl
    · split
      · exact inv_irrel h rfl rfl rfl rfl rfl rfl rfl
      · exact h
  · split
    · exact inv_irrel h rfl rfl rfl rfl rfl rfl rfl
    · rename_i s hs
      rw [Bool.not_eq_true] at hs
      obtain ⟨hA, hB, hC, hG, hD, hE, hF⟩ := h
      obtain ⟨hb1, hb2, hb3⟩ := hB hs
      have hnc : ∀ ev ∈ st.events, ev.isClose = false :=
        noCloses_of_closesOf_eq_nil hb1
      unfold Inv
      refine ⟨?_, ?_, ?_, ?_, ?_, ?_, ?_⟩
      · exact hA
      · intro _
        refine ⟨?_, ?_, hb3⟩
        · simp [closesOf_append, hb1, closesOf_deliverEvents]
        · simp [cbCount_append, hb2, cbCount_deliverEvents]
      · intro l b hsi
        have hsi2 : st.stopInfo = some (l, b) := hsi
        rw [hb3] at hsi2
        exact Option.noConfusion hsi2
      · intro _
        exact hs
      · refine wpc_of_noCloses ?_
        intro ev hev
        rcases List.mem_append.mp hev with hm | hm
        · exact hnc ev hm
        · exact deliverEvents_noCloses ev hm
      · intro e s2 hmem
        rcases List.mem_append.mp hmem with hm | hm
        · exact hE e s2 hm
        · exact write_mem_deliverEvents hm
      · exact hF
  · exact h

/-- Every schedulable action preserves Inv. -/
theorem inv_step (fails : Nat → Option Nat → Bool) (a : Action) {st : BState}
    (h : Inv st) : Inv (applyAction fails a st) := by
  unfold applyAction
  split
  · exact h
  · split
    · exact inv_buildStepFn h
    · exact inv_forwardStepFn fails h
    · exact inv_stopAction h
    · rename_i e
      obtain ⟨hA, hB, hC, hG, hD, hE, hF⟩ := h
      unfold Inv
      refine ⟨hA, hB, ?_, hG, hD, ?_, hF⟩
      · intro l b hsi
        obtain ⟨hc1, hc2, hc3, hc4⟩ := hC l b hsi
        exact ⟨hc1, hc2, hc3, fun x hx => List.mem_append_left _ (hc4 x hx)⟩
      · intro e2 s hmem
        exact List.mem_append_left _ (hE e2 s hmem)
    · exact h

/-- A trace of actions preserves Inv. -/
theorem inv_run (fails : Nat → Option Nat → Bool) (tr : List Action)
    {st : BState} (h : Inv st) : Inv (run fails st tr) := by
  induction tr generalizing st with
  | nil => exact h
  | cons a tr ih => exact ih (inv_step fails a h)

/-- The freshly constructed Builder satisfies Inv. -/
theorem inv_mkBuilder (script : List ReadRes) : Inv (mkBuilder script) := by
  refine ⟨rfl, ?_, ?_, ?_, rfl, ?_, rfl⟩
  · intro _; exact ⟨rfl, rfl, rfl⟩
  · intro l b hsi
    exact Option.noConfusion hsi
  · intro _; rfl
  · intro e s hmem
    exact absurd hmem (List.not_mem_nil _)

/-! ### Monotonicity of the stop flag and freezing after stop -/

theorem stopped_mono_step (fails : Nat → Option Nat → Bool) (a : Action)
    (st : BState) (h : st.stopped = true) :
    (applyAction fails a st).stopped = true := by
  unfold applyAction buildStepFn forwardStepFn stopAction
  repeat' split
  all_goals exact h

theorem stopped_mono_run (fails : Nat → Option Nat → Bool) (tr : List Action)
    (st : BState) (h : st.stopped = true) :
    (run fails st tr).stopped = true := by
  induction tr generalizing st with
  | nil => exact h
  | cons a tr ih => exact ih _ (stopped_mono_step fails a st h)

theorem wcc_log (evs : List Event) :
    writesOf (evs ++ [Event.logRead]) = writesOf evs ∧
    closesOf (evs ++ [Event.logRead]) = closesOf evs ∧
    cbCount (evs ++ [Event.logRead]) = cbCount evs := by
  refine ⟨?_, ?_, ?_⟩ <;>
    simp [writesOf_append, closesOf_append, cbCount_append, writesOf,
      closesOf, cbCount]

theorem wcc_crash (evs : List Event) :
    writesOf (evs ++ [Event.sendOnClosedQueue]) = writesOf evs ∧
    closesOf (evs ++ [Event.sendOnClosedQueue]) = closesOf evs ∧
    cbCount (evs ++ [Event.sendOnClosedQueue]) = cbCount evs := by
  refine ⟨?_, ?_, ?_⟩ <;>
    simp [writesOf_append, closesOf_append, cbCount_append, writesOf,
      closesOf, cbCount]

/-- Once stopped, no step records another write, close or callback. -/
theorem frozen_step (fails : Nat → Option Nat → Bool) (a : Action)
    (st : BState) (h : st.stopped = true) :
    writesOf (applyAction fails a st).events = writesOf st.events ∧
    closesOf (applyAction fails a st).events = closesOf st.events ∧
    cbCount (applyAction fails a st).events = cbCount st.events := by
  unfold applyAction buildStepFn forwardStepFn stopAction
  repeat' split
  all_goals first
    | exact ⟨rfl, rfl, rfl⟩
    | exact wcc_log st.events
    | exact wcc_crash st.events

theorem frozen_run (fails : Nat → Option Nat → Bool) (tr : List Action)
    (st : BState) (h : st.stopped = true) :
    writesOf (run fails st tr).events = writesOf st.events ∧
    closesOf (run fails st tr).events = closesOf st.events ∧
    cbCount (run fails st tr).events = cbCount st.events := by
  induction tr generalizing st with
  | nil => exact ⟨rfl, rfl, rfl⟩
  | cons a tr ih =>
    obtain ⟨w1, c1, b1⟩ := frozen_step fails a st h
    obtain ⟨w2, c2, b2⟩ := ih _ (stopped_mono_step fails a st h)
    exact ⟨w2.trans w1, c2.trans c1, b2.trans b1⟩

/-- The attached-element list only grows. -/
theorem elements_mono_step (fails : Nat → Option Nat → Bool) (a : Action)
    (st : BState) {e : Nat} (h : e ∈ st.elements) :
    e ∈ (applyAction fails a st).elements := by
  unfold applyAction buildStepFn forwardStepFn stopAction
  repeat' split
  all_goals first
    | exact h
    | exact List.mem_append_left _ h

theorem elements_mono_run (fails : Nat → Option Nat → Bool) (tr : List Action)
    (st : BState) {e : Nat} (h : e ∈ st.elements) :
    e ∈ (run fails st tr).elements := by
  induction tr generalizing st with
  | nil => exact h
  | cons a tr ih => exact ih _ (elements_mono_step fails a st h)

/-! ### Basic facts about Builder.stop -/

theorem stopAction_noop {st : BState} (h : st.stopped = true) :
    stopAction st = st := by
  rw [stopAction, if_pos h]

theorem stopAction_sets_stopped (st : BState) :
    (stopAction st).stopped = true := by
  by_cases h : st.stopped = true
  · rw [stopAction_noop h]; exact h
  · rw [stopAction, if_neg h]

theorem stopAction_idem (st : BState) :
    stopAction (stopAction st) = stopAction st :=
  stopAction_noop (stopAction_sets_stopped st)

/-! ### Claims -/

/-- C1: teardown is idempotent and happens exactly once.  If the Builder is
already stopped, `stop` is a no-op, so any two triggering paths (end of
stream, a loop, an external caller) converge on one transition.  On the
transition it marks stopped, closes every attached element in attachment
order, then invokes the registered callback (if any), then closes the
bounded queue.  Over every trace of the engine, the closes on record are
exactly the elements attached at the stop transition — each closed exactly
once, in attachment order — and the callback ran exactly once iff it was
registered. -/
theorem C1_teardown_exactly_once :
    (∀ st : BState, st.stopped = true → stopAction st = st) ∧
    (∀ st : BState, stopAction (stopAction st) = stopAction st) ∧
    (∀ st : BState, st.stopped = false →
      (stopAction st).stopped = true ∧ (stopAction st).outClosed = true ∧
      (stopAction st).events = st.events ++ st.elements.map Event.close
        ++ (if st.handlerSet then [Event.callback] else [])) ∧
    (∀ (fails : Nat → Option Nat → Bool) (script : List ReadRes)
        (tr : List Action) (l : List Nat) (b : Bool),
      (run fails (mkBuilder script) tr).stopInfo = some (l, b) →
      closesOf (run fails (mkBuilder script) tr).events = l ∧
      cbCount (run fails (mkBuilder script) tr).events = (if b then 1 else 0) ∧
      (run fails (mkBuilder script) tr).outClosed = true) := by
  refine ⟨fun st h => stopAction_noop h, stopAction_idem, ?_, ?_⟩
  · intro st h
    refine ⟨stopAction_sets_stopped st, ?_, ?_⟩ <;>
      rw [stopAction, if_neg (by rw [h]; exact Bool.false_ne_true)]
  · intro fails script tr l b hsi
    obtain ⟨hA, hB, hC, hG, hD, hE, hF⟩ := inv_run fails tr (inv_mkBuilder script)
    obtain ⟨hc1, hc2, hc3, _⟩ := hC l b hsi
    refine ⟨hc2, hc3, ?_⟩
    have hA2 : (run fails (mkBuilder script) tr).outClosed =
        (run fails (mkBuilder script) tr).stopped := hA
    rw [hA2, hc1]

theorem C1_witness :
    stopAction { mkBuilder [] with stopped := true } =
      { mkBuilder [] with stopped := true } ∧
    closesOf (run noFail (mkBuilder [ReadRes.eof])
      [Action.extAttach 3, Action.buildStep, Action.buildStep]).events = [3] := by
  constructor
  · exact C1_teardown_exactly_once.1 _ rfl
  · exact (C1_teardown_exactly_once.2.2.2 noFail [ReadRes.eof]
      [Action.extAttach 3, Action.buildStep, Action.buildStep] [3] false
      (by decide)).1

/-- C2 counterexample: the emission counter is a uint16; at the 65537th
emitted sample it wraps to 0 instead of exceeding the previous sample's
65535, so for the lifetime of one engine instance the emission sequence
numbers are NOT strictly increasing by exactly 1. -/
theorem C2_counterexample :
    seqOfEmission 65535 = 65535 ∧ seqOfEmission 65536 = 0 ∧
    ¬ seqOfEmission 65535 < seqOfEmission 65536 := by
  refine ⟨?_, ?_, ?_⟩
  · rw [seqOfEmission_eq]
  · rw [seqOfEmission_eq]
  · rw [seqOfEmission_eq, seqOfEmission_eq]
    decide

/-- C2 amended: the emission counter is assigned by the engine itself
(`b.sequence`, independent of transport sequence numbers), starts at 0, and
increments by exactly 1 per sample handed to the dispatch queue UP TO the
width of the uint16 counter: across any trace the counter equals
`seqOfEmission` of the number of emitted samples, which is `i % 2^16` at the
i-th emission — increasing by exactly 1 while `i + 1 < 2^16` and wrapping to
0 afterwards. -/
theorem C2_sequence_counts_mod_uint16 :
    (∀ (fails : Nat → Option Nat → Bool) (script : List ReadRes)
        (tr : List Action),
      (run fails (mkBuilder script) tr).sequence =
        seqOfEmission (run fails (mkBuilder script) tr).emitted) ∧
    seqOfEmission 0 = 0 ∧
    (∀ i, seqOfEmission i = i % 65536) ∧
    (∀ i, i + 1 < 65536 → seqOfEmission (i + 1) = seqOfEmission i + 1) := by
  refine ⟨?_, rfl, seqOfEmission_eq, ?_⟩
  · intro fails script tr
    exact (inv_run fails tr (inv_mkBuilder script)).2.2.2.2.2.2
  · intro i h
    rw [seqOfEmission_eq, seqOfEmission_eq]
    omega

theorem C2_witness :
    (run noFail (mkBuilder [ReadRes.pkt 1])
      [Action.buildStep, Action.buildStep, Action.buildStep,
       Action.buildStep]).sequence =
      seqOfEmission (run noFail (mkBuilder [ReadRes.pkt 1])
        [Action.buildStep, Action.buildStep, Action.buildStep,
         Action.buildStep]).emitted ∧
    seqOfEmission 1 = seqOfEmission 0 + 1 := by
  constructor
  · exact C2_sequence_counts_mod_uint16.1 noFail _ _
  · exact C2_sequence_counts_mod_uint16.2.2.2 0 (by decide)

/-- C3 counterexample: "foo" is not one of the four known codec names, yet
NewBuilder's switch falls through and binds NO depacketizer (the nil
interface value) — not an identity/no-op passthrough.  This falsifies the
claim that an unknown codec is "not bound to an absent (nil)
depacketizer". -/
theorem C3_counterexample :
    "foo" ∉ knownCodecs ∧ (selectStrategy "foo").depacketizer = none := by
  exact ⟨by decide, rfl⟩

/-- C3 amended: for every codec identifier not in the known set, constructing
an engine still succeeds without error (the switch is permissive), but the
strategy bound is the absent one: nil depacketizer and nil partition
checker — not an identity passthrough. -/
theorem C3_unknown_codec_binds_nil (name : String) (h : name ∉ knownCodecs) :
    selectStrategy name = ⟨none, none⟩ := by
  simp only [knownCodecs, List.mem_cons, List.not_mem_nil, or_false,
    not_or] at h
  obtain ⟨h1, h2, h3, h4⟩ := h
  rw [selectStrategy, if_neg h1, if_neg h2, if_neg h3, if_neg h4]

theorem C3_witness : selectStrategy "foo" = ⟨none, none⟩ :=
  C3_unknown_codec_binds_nil "foo" (by decide)

/-- C4: the claim asserts shutdown can never crash the hand-off queue, but
the code has a send-after-close race: in the interleaving `raceTrace` the
ingest loop passes its stop check (builder.go:117-122), an external stop
then closes `out` (builder.go:175), and the pending `b.out <- sample`
(builder.go:128) sends on a closed channel — a runtime panic.  This theorem
evaluates the engine on that failing interleaving. -/
theorem C4_send_on_closed_queue_crash :
    (run noFail (mkBuilder [ReadRes.pkt 1]) raceTrace).crashed = true ∧
    Event.sendOnClosedQueue ∈
      (run noFail (mkBuilder [ReadRes.pkt 1]) raceTrace).events ∧
    (run noFail (mkBuilder [ReadRes.pkt 1])
      (raceTrace.take 3)).stopped = false := by
  exact ⟨by decide, by decide, by decide⟩

/-- C5: no attached Stage ever receives a Write after its Close has been
invoked: over every trace of the engine, every recorded write precedes every
recorded close.  Moreover, once the dispatch loop observes the stopped flag
true it dispatches nothing further and exits: the step records no event and
the loop reaches its final state. -/
theorem C5_no_write_after_close :
    (∀ (fails : Nat → Option Nat → Bool) (script : List ReadRes)
        (tr : List Action),
      writesPrecedeCloses (run fails (mkBuilder script) tr).events = true) ∧
    (∀ (fails : Nat → Option Nat → Bool) (st : BState) (s : Option Nat),
      st.crashed = false → st.forwardPC = ForwardPC.deliver s →
      st.stopped = true →
      (applyAction fails Action.forwardStep st).events = st.events ∧
      (applyAction fails Action.forwardStep st).forwardPC = ForwardPC.done) := by
  constructor
  · intro fails script tr
    exact (inv_run fails tr (inv_mkBuilder script)).2.2.2.2.1
  · intro fails st s hcr hpc hs
    constructor <;> simp [applyAction, forwardStepFn, hcr, hpc, hs]

theorem C5_witness :
    writesPrecedeCloses (run noFail (mkBuilder [ReadRes.eof])
      [Action.extAttach 1, Action.buildStep, Action.buildStep]).events
      = true ∧
    (applyAction noFail Action.forwardStep
      { mkBuilder [] with
        forwardPC := ForwardPC.deliver none
        stopped := true }).forwardPC = ForwardPC.done := by
  constructor
  · exact C5_no_write_after_close.1 noFail _ _
  · exact (C5_no_write_after_close.2 noFail _ none rfl rfl rfl).2

/-- C6: the stopped flag is monotone: from any state in which `stopped` is
true, no sequence of engine operations (ingest steps, dispatch steps,
attach, onStop, stop) ever makes it false again. -/
theorem C6_stopped_monotone (fails : Nat → Option Nat → Bool)
    (tr : List Action) (st : BState) (h : st.stopped = true) :
    (run fails st tr).stopped = true :=
  stopped_mono_run fails tr st h

theorem C6_witness :
    (run noFail { mkBuilder [] with stopped := true }
      [Action.buildStep, Action.forwardStep, Action.extStop,
       Action.extAttach 7, Action.extOnStop]).stopped = true :=
  C6_stopped_monotone noFail _ _ rfl

/-- C7: the ingest loop's read-error policy.  When `ReadRTP` yields a
non-EOF error the loop logs it and continues — back to the top of the loop
with the stop flag, queue and elements untouched.  When it yields a clean
end-of-stream the loop runs stop-and-teardown and exits (its program counter
reaches its final state). -/
theorem C7_read_error_policy (fails : Nat → Option Nat → Bool) (st : BState)
    (rest : List ReadRes) (hcr : st.crashed = false)
    (hpc : st.buildPC = BuildPC.readPkt) :
    (st.script = ReadRes.err :: rest →
      applyAction fails Action.buildStep st =
        { st with
          script := rest
          events := st.events ++ [Event.logRead]
          buildPC := BuildPC.checkTop }) ∧
    (st.script = ReadRes.eof :: rest →
      applyAction fails Action.buildStep st =
        { stopAction { st with script := rest } with
          buildPC := BuildPC.done }) := by
  constructor
  · intro hs
    simp [applyAction, buildStepFn, hcr, hpc, hs]
  · intro hs
    simp [applyAction, buildStepFn, hcr, hpc, hs]

theorem C7_witness :
    applyAction noFail Action.buildStep
      { mkBuilder [ReadRes.err] with buildPC := BuildPC.readPkt } =
      { mkBuilder [] with
        events := [Event.logRead]
        buildPC := BuildPC.checkTop } ∧
    (applyAction noFail Action.buildStep
      { mkBuilder [ReadRes.eof] with
        buildPC := BuildPC.readPkt }).stopped = true := by
  constructor
  · have h := (C7_read_error_policy noFail
      { mkBuilder [ReadRes.err] with buildPC := BuildPC.readPkt } []
      rfl rfl).1 rfl
    rw [h]
    decide
  · have h := (C7_read_error_policy noFail
      { mkBuilder [ReadRes.eof] with buildPC := BuildPC.readPkt } []
      rfl rfl).2 rfl
    rw [h]
    decide

/-- C8: a failing Stage write is isolated: in one dispatch pass, whatever
the set of failing writes, every attached element still receives the Write
for that sample in attachment order (a failure only adds a log event), and
the dispatch loop returns to its receive point to process later samples. -/
theorem C8_write_failure_isolated (fails : Nat → Option Nat → Bool)
    (st : BState) (s : Option Nat) (hcr : st.crashed = false)
    (hpc : st.forwardPC = ForwardPC.deliver s) (hs : st.stopped = false) :
    (applyAction fails Action.forwardStep st).events =
      st.events ++ deliverEvents st.elements s fails ∧
    writesOf (deliverEvents st.elements s fails) =
      st.elements.map (fun e => (e, s)) ∧
    (applyAction fails Action.forwardStep st).forwardPC = ForwardPC.recv := by
  refine ⟨?_, writesOf_deliverEvents st.elements s fails, ?_⟩ <;>
    simp [applyAction, forwardStepFn, hcr, hpc, hs]

theorem C8_witness :
    (applyAction (fun e _ => e == 1) Action.forwardStep
      { mkBuilder [] with
        elements := [1, 2]
        forwardPC := ForwardPC.deliver (some 0) }).events =
      [Event.write 1 (some 0), Event.logWrite 1, Event.write 2 (some 0)] ∧
    writesOf (deliverEvents [1, 2] (some 0) (fun e _ => e == 1)) =
      [(1, some 0), (2, some 0)] := by
  have h := C8_write_failure_isolated (fun e _ => e == 1)
    { mkBuilder [] with
      elements := [1, 2]
      forwardPC := ForwardPC.deliver (some 0) } (some 0) rfl rfl rfl
  refine ⟨?_, by decide⟩
  rw [h.1]
  decide

/-- C9: a Stage attached after N samples have been dispatched receives none
of those N samples: at any point of any trace, an element that is not (yet)
attached has received no Write at all — each dispatch pass writes exactly to
the elements attached at the moment the pass reads the element set, so
attachment mid-flight only affects later samples. -/
theorem C9_attach_mid_flight (fails : Nat → Option Nat → Bool)
    (script : List ReadRes) (tr : List Action) (e : Nat)
    (h : e ∉ (run fails (mkBuilder script) tr).elements) (s : Option Nat) :
    Event.write e s ∉ (run fails (mkBuilder script) tr).events := by
  intro hmem
  exact h ((inv_run fails tr (inv_mkBuilder script)).2.2.2.2.2.1 e s hmem)

theorem C9_witness :
    Event.write 5 (some 0) ∉
      (run noFail (mkBuilder [ReadRes.pkt 1])
        [Action.extAttach 0, Action.buildStep, Action.buildStep,
         Action.buildStep, Action.buildStep, Action.forwardStep,
         Action.forwardStep]).events :=
  C9_attach_mid_flight noFail _ _ 5 (by decide) (some 0)

/-- C10: attaching a Stage after the engine has stopped still succeeds — the
element is appended to the attached set — but such a Stage never receives a
Write and its Close is never invoked: continuing with any further trace, the
element stays attached while no write and no close for it is ever
recorded. -/
theorem C10_attach_after_stop (fails : Nat → Option Nat → Bool)
    (script : List ReadRes) (tr1 tr2 : List Action) (e : Nat)
    (hcr : (run fails (mkBuilder script) tr1).crashed = false)
    (hstop : (run fails (mkBuilder script) tr1).stopped = true)
    (hnew : e ∉ (run fails (mkBuilder script) tr1).elements) :
    e ∈ (run fails (applyAction fails (Action.extAttach e)
      (run fails (mkBuilder script) tr1)) tr2).elements ∧
    (∀ s, Event.write e s ∉ (run fails (applyAction fails (Action.extAttach e)
      (run fails (mkBuilder script) tr1)) tr2).events) ∧
    Event.close e ∉ (run fails (applyAction fails (Action.extAttach e)
      (run fails (mkBuilder script) tr1)) tr2).events := by
  obtain ⟨hA, hB, hC, hG, hD, hE, hF⟩ := inv_run fails tr1 (inv_mkBuilder script)
  have hst' : applyAction fails (Action.extAttach e)
      (run fails (mkBuilder script) tr1) =
      { run fails (mkBuilder script) tr1 with
        elements := (run fails (mkBuilder script) tr1).elements ++ [e] } := by
    simp [applyAction, hcr]
  have hstop' : (applyAction fails (Action.extAttach e)
      (run fails (mkBuilder script) tr1)).stopped = true := by
    rw [hst']
    exact hstop
  have hfr := frozen_run fails tr2
    (applyAction fails (Action.extAttach e) (run fails (mkBuilder script) tr1))
    hstop'
  have hwf : writesOf (run fails (applyAction fails (Action.extAttach e)
      (run fails (mkBuilder script) tr1)) tr2).events =
      writesOf (run fails (mkBuilder script) tr1).events := by
    rw [hfr.1, hst']
  have hcf : closesOf (run fails (applyAction fails (Action.extAttach e)
      (run fails (mkBuilder script) tr1)) tr2).events =
      closesOf (run fails (mkBuilder script) tr1).events := by
    rw [hfr.2.1, hst']
  refine ⟨?_, ?_, ?_⟩
  · apply elements_mono_run
    rw [hst']
    exact List.mem_append_right _ (by simp)
  · intro s hmem
    have h2 : (e, s) ∈ writesOf (run fails (mkBuilder script) tr1).events := by
      rw [← hwf]
      exact mem_writesOf.mpr hmem
    exact hnew (hE e s (mem_writesOf.mp h2))
  · intro hmem
    have h2 : e ∈ closesOf (run fails (mkBuilder script) tr1).events := by
      rw [← hcf]
      exact mem_closesOf.mpr hmem
    cases hsi : (run fails (mkBuilder script) tr1).stopInfo with
    | none =>
      rw [hG hsi] at hstop
      exact Bool.false_ne_true hstop
    | some lb =>
      obtain ⟨l, b⟩ := lb
      obtain ⟨_, hc2, _, hc4⟩ := hC l b hsi
      rw [hc2] at h2
      exact hnew (hc4 e h2)

theorem C10_witness :
    5 ∈ (run noFail
      (applyAction noFail (Action.extAttach 5)
        (run noFail (mkBuilder [ReadRes.eof])
          [Action.extAttach 0, Action.buildStep, Action.buildStep]))
      [Action.forwardStep, Action.forwardStep]).elements ∧
    Event.close 5 ∉ (run noFail
      (applyAction noFail (Action.extAttach 5)
        (run noFail (mkBuilder [ReadRes.eof])
          [Action.extAttach 0, Action.buildStep, Action.buildStep]))
      [Action.forwardStep, Action.forwardStep]).events := by
  have h := C10_attach_after_stop noFail [ReadRes.eof]
    [Action.extAttach 0, Action.buildStep, Action.buildStep]
    [Action.forwardStep, Action.forwardStep] 5
    (by decide) (by decide) (by decide)
  exact ⟨h.1, h.2.2⟩

end IonAvp
